import Mathlib

/-!
Verification of the sampling-and-summarization pipeline of
`src/backend/stylegen_service.py`.

Strings are modelled as `List Char` (Python `len`/slicing count code points,
matching list length here).  Pure functions of the service are translated
directly; the filesystem and the generative endpoint are modelled as explicit
inputs (a directory listing, an oracle from requests to responses).
-/

namespace StyleGen

/-- Python regex `\s` whitespace, ASCII range (space, tab, newline, carriage
return, vertical tab, form feed).  The service's corpus text is ASCII-oriented;
the exotic Unicode spaces also matched by `\s` play no role in any property
proved here. -/
def isPySpace (c : Char) : Bool :=
  c = ' ' || c = '\t' || c = '\n' || c = '\r' || c = '\x0b' || c = '\x0c'

/-- `re.sub(r"\s+", " ", text)` (line 165): every maximal run of whitespace
becomes a single space.  Within a run, all characters but the last are dropped
and the last becomes `' '`. -/
def collapseWs : List Char → List Char
  | [] => []
  | [c] => if isPySpace c then [' '] else [c]
  | c₁ :: c₂ :: rest =>
    if isPySpace c₁ && isPySpace c₂ then collapseWs (c₂ :: rest)
    else (if isPySpace c₁ then ' ' else c₁) :: collapseWs (c₂ :: rest)

/-- Python `str.lstrip()` restricted to whitespace. -/
def lstrip (l : List Char) : List Char := l.dropWhile isPySpace

/-- Python `str.rstrip()` (line 168). -/
def rstrip (l : List Char) : List Char := (l.reverse.dropWhile isPySpace).reverse

/-- Python `str.strip()` (lines 154, 165). -/
def strip (l : List Char) : List Char := rstrip (lstrip l)

/-- Python slice `s[:k]` for a possibly negative bound `k` (line 168 uses
`condensed[: max_chars - 3]`, and `max_chars - 3` may be negative for tiny
budgets). -/
def pyTake (l : List Char) (k : Int) : List Char :=
  if 0 ≤ k then l.take k.toNat else l.take (l.length - (-k).toNat)

/-- The `condensed` intermediate of `sanitize_text` (line 165). -/
def condense (text : List Char) : List Char := strip (collapseWs text)

/-- The fixed 3-character ellipsis marker appended on truncation (line 168). -/
def ellipsis : List Char := ['.', '.', '.']

/-- `sanitize_text` (lines 163-168): collapse whitespace, strip, and clamp to
`max_chars` characters with a trailing ellipsis marker. -/
def sanitize_text (text : List Char) (max_chars : Nat) : List Char :=
  let condensed := condense text
  if condensed.length ≤ max_chars then condensed
  else rstrip (pyTake condensed ((max_chars : Int) - 3)) ++ ellipsis

/-- No two adjacent whitespace characters (the shape `re.sub(r"\s+", " ", ·)`
guarantees, and the hypothesis of the idempotence property). -/
def NoWsRun (l : List Char) : Prop :=
  l.Chain' (fun a b => isPySpace a = false ∨ isPySpace b = false)


/-- Decision procedure for `NoWsRun` (written directly so that concrete
instances reduce in the kernel). -/
def decNoWsRun : ∀ l : List Char, Decidable (NoWsRun l)
  | [] => isTrue List.chain'_nil
  | [c] => isTrue (List.chain'_singleton c)
  | c₁ :: c₂ :: rest =>
    match decNoWsRun (c₂ :: rest) with
    | isTrue ht =>
      if h : isPySpace c₁ = false ∨ isPySpace c₂ = false then
        isTrue (List.chain'_cons.mpr ⟨h, ht⟩)
      else isFalse (fun hc => h (List.chain'_cons.mp hc).1)
    | isFalse hf => isFalse (fun hc => hf (List.chain'_cons.mp hc).2)

instance (l : List Char) : Decidable (NoWsRun l) := decNoWsRun l


def wsChar (c : Char) : Char := if isPySpace c then ' ' else c

/-! ## Corpus summarizer (`summarize_corpus`, lines 171-216) -/

/-- The apostrophe character (code point 39). -/
def apostropheChar : Char := Char.ofNat 39

def isAsciiLower (c : Char) : Bool := 'a' ≤ c && c ≤ 'z'

def isAsciiUpper (c : Char) : Bool := 'A' ≤ c && c ≤ 'Z'

def isAsciiAlpha (c : Char) : Bool := isAsciiLower c || isAsciiUpper c

/-- A character matched by the token class `[a-zA-Z']` of the regex on
line 182. -/
def isTokChar (c : Char) : Bool := isAsciiAlpha c || c = apostropheChar

/-- Python `str.lower()` on one character (ASCII; the tokens the service
handles are ASCII and the regex class only admits ASCII letters). -/
def pyLowerChar (c : Char) : Char :=
  if isAsciiUpper c then Char.ofNat (c.toNat + 32) else c

/-- Python `str.upper()` on one character (ASCII). -/
def pyUpperChar (c : Char) : Char :=
  if isAsciiLower c then Char.ofNat (c.toNat - 32) else c

/-- `combined_text.lower()` (line 182). -/
def pyLowerText (l : List Char) : List Char := l.map pyLowerChar

/-- Python regex `\w` (ASCII: letter, digit or underscore; the corpus text
handled by the service is ASCII-oriented). -/
def wordChar (c : Char) : Bool :=
  isAsciiAlpha c || ('0' ≤ c && c ≤ '9') || c = '_'

/-- Word-ness of an optional context character (text ends count as
non-word). -/
def optWord : Option Char → Bool
  | none => false
  | some c => wordChar c

/-- Greedy-with-backtracking end search for one `[a-zA-Z']+\b` attempt: the
largest `k ≥ 1` such that a word boundary holds after the first `k` characters
of `run`, where `wr` is the word-ness of the character following the run. -/
def bestEnd : List Char → Bool → Option Nat
  | [], _ => none
  | [c], wr => if wordChar c != wr then some 1 else none
  | c₁ :: c₂ :: rest, wr =>
    match bestEnd (c₂ :: rest) wr with
    | some k => some (k + 1)
    | none => if wordChar c₁ != wordChar c₂ then some 1 else none

/-- The `re.findall` scan: at each position, a match attempt starts only on a
`[a-zA-Z']` character preceded by a word boundary; on success the scan resumes
after the match, on failure one character further.  `fuel` bounds the number
of steps (each step consumes at least one character). -/
def scanTokens : Nat → Option Char → List Char → List (List Char)
  | 0, _, _ => []
  | _ + 1, _, [] => []
  | fuel + 1, prev, c :: cs =>
    if isTokChar c && (optWord prev != wordChar c) then
      let run := c :: cs.takeWhile isTokChar
      let rest := cs.dropWhile isTokChar
      match bestEnd run (optWord rest.head?) with
      | some k =>
        let tok := run.take k
        tok :: scanTokens fuel (some (tok.getLastD c)) ((c :: cs).drop k)
      | none => scanTokens fuel (some c) cs
    else scanTokens fuel (some c) cs

/-- `re.findall(r"\b[a-zA-Z']+\b", text)` (line 182). -/
def findTokens (l : List Char) : List (List Char) :=
  scanTokens (l.length + 1) none l

/-- A sentence separator of the regex `[.!?]+` (line 174). -/
def isSentSep (c : Char) : Bool := c = '.' || c = '!' || c = '?'

/-- `re.split(r"[.!?]+", text)` (line 174): fragments between maximal
separator runs, empty fragments included (the service filters them next). -/
def splitSentences : List Char → List (List Char)
  | [] => [[]]
  | [c] => if isSentSep c then [[], []] else [[c]]
  | c₁ :: c₂ :: rest =>
    if isSentSep c₁ then
      if isSentSep c₂ then splitSentences (c₂ :: rest)
      else [] :: splitSentences (c₂ :: rest)
    else
      match splitSentences (c₂ :: rest) with
      | [] => [[c₁]]
      | f :: fs => (c₁ :: f) :: fs

/-- Python `str.split()` with no argument (line 177): maximal
non-whitespace runs, no empty fragments. -/
def pySplitWs : List Char → List (List Char)
  | [] => []
  | [c] => if isPySpace c then [] else [[c]]
  | c₁ :: c₂ :: rest =>
    if isPySpace c₁ then pySplitWs (c₂ :: rest)
    else
      match pySplitWs (c₂ :: rest), isPySpace c₂ with
      | w :: ws, false => (c₁ :: w) :: ws
      | ws, _ => [c₁] :: ws

/-- The fixed stopword set (lines 183-205). -/
def stopwords : List (List Char) :=
  ["the", "and", "of", "to", "in", "a", "is", "for", "on", "with", "that",
    "as", "it", "this", "are", "was", "be", "or", "by", "from", "an"].map
    String.data

/-- The keyword candidates (lines 206-208): tokens that are neither stopwords
nor of length ≤ 3. -/
def keywords (tokens : List (List Char)) : List (List Char) :=
  tokens.filter (fun w => decide (w ∉ stopwords ∧ 3 < w.length))

/-- Occurrences of `w` in `l` — the count `collections.Counter` keeps. -/
def countOcc (l : List (List Char)) (w : List Char) : Nat :=
  (l.filter (fun x => decide (x = w))).length

/-- Index of the first occurrence of `w` in `l` (length of `l` if absent). -/
def firstIdx : List (List Char) → List Char → Nat
  | [], _ => 0
  | x :: xs, w => if x = w then 0 else firstIdx xs w + 1

def dedupFirstAux (seen : List (List Char)) : List (List Char) → List (List Char)
  | [] => []
  | w :: ws =>
    if w ∈ seen then dedupFirstAux seen ws
    else w :: dedupFirstAux (w :: seen) ws

/-- The distinct elements of `l` in first-occurrence order — the key order of
`collections.Counter`, whose dict remembers insertion order. -/
def dedupFirst (l : List (List Char)) : List (List Char) := dedupFirstAux [] l

/-- The comparison `Counter.most_common` effectively sorts by (via
`heapq.nlargest` over `(count, insertion-rank)` with a stable sort):
higher count first, and at equal counts the earlier-first-seen key first. -/
def mostCommonLe (kws : List (List Char)) (a b : List Char) : Bool :=
  decide (countOcc kws b < countOcc kws a) ||
    (decide (countOcc kws a = countOcc kws b) &&
      decide (firstIdx kws a ≤ firstIdx kws b))

/-- `Counter(kws).most_common(n)`, keys only (line 209). -/
def mostCommon (kws : List (List Char)) (n : Nat) : List (List Char) :=
  ((dedupFirst kws).mergeSort (mostCommonLe kws)).take n

/-- `PostSample` (lines 46-50); `path` is the file's identifier relative to
the corpus root. -/
structure PostSample where
  title : List Char
  text : List Char
  path : List Char
deriving DecidableEq

/-- The metrics dict built on lines 211-216. -/
structure CorpusMetrics where
  avg_sentence_length : ℚ
  top_keywords : List (List Char)
  sample_count : Nat
  total_tokens : Nat
deriving DecidableEq

/-- `round(x, 2)` (line 212).  Python rounds the binary float half-to-even;
over ℚ we use the standard `round`.  No claim depends on this field. -/
def round2 (q : ℚ) : ℚ := (round (q * 100) : ℚ) / 100

/-- `" ".join(sample.text for sample in samples)` (line 173). -/
def combinedText (samples : List PostSample) : List Char :=
  List.intercalate [' '] (samples.map PostSample.text)

/-- The cleaned sentence list (lines 174-175). -/
def corpusSentences (samples : List PostSample) : List (List Char) :=
  ((splitSentences (combinedText samples)).map strip).filter
    (fun s => decide (s ≠ []))

/-- The token list (line 182). -/
def corpusTokens (samples : List PostSample) : List (List Char) :=
  findTokens (pyLowerText (combinedText samples))

/-- The keyword candidate list (lines 206-208). -/
def corpusKeywords (samples : List PostSample) : List (List Char) :=
  keywords (corpusTokens samples)

/-- `summarize_corpus` (lines 171-216). -/
def summarize_corpus (samples : List PostSample) : CorpusMetrics :=
  let sentences := corpusSentences samples
  let avg : ℚ :=
    if sentences.length = 0 then 0
    else ((sentences.map (fun s => ((pySplitWs s).length : ℚ))).sum) /
      (sentences.length : ℚ)
  { avg_sentence_length := round2 avg
    top_keywords := mostCommon (corpusKeywords samples) 15
    sample_count := samples.length
    total_tokens := (corpusTokens samples).length }

/-! ## Sample selector (`collect_samples`, lines 135-160)

The filesystem is modelled explicitly: a corpus maps a host key to the
directory's recursive file listing (`None` when `blogs/<host>` does not
exist).  Each listed file carries its bare filename (`path.name`), its
identifier relative to the corpus root, the outcome of `path.stat()`
(`none` models an OS error during the sort-key computation) and the outcome
of `path.read_text(encoding="utf-8")`. -/

/-- Outcome of `path.read_text(encoding="utf-8")` (line 150). -/
inductive ReadOutcome where
  | ok (text : List Char)
  /-- `UnicodeDecodeError` — the only exception the selector catches. -/
  | decodeError
  /-- `OSError` (I/O or permission failure) — not caught. -/
  | osError
deriving DecidableEq

structure FileEntry where
  /-- Bare filename, `path.name`. -/
  name : List Char
  /-- Identifier relative to the corpus root. -/
  path : List Char
  /-- `path.stat().st_mtime`, or `none` for an OS error while stat-ing. -/
  stat : Option Int
  read : ReadOutcome
deriving DecidableEq

inductive FsError where
  | osError
deriving DecidableEq

/-- The sort key `p.stat().st_mtime` (line 143); only evaluated on entries
whose stat succeeded. -/
def mtimeKey (e : FileEntry) : Int := e.stat.getD 0

/-- `"-"`-to-space replacement on the bare filename (line 156). -/
def pyReplaceHyphen (l : List Char) : List Char :=
  l.map (fun c => if c = '-' then ' ' else c)

/-- Python `str.title()` (ASCII): a cased character becomes uppercase after a
non-letter (or at the start) and lowercase after a letter. -/
def pyTitleGo : Bool → List Char → List Char
  | _, [] => []
  | prevAlpha, c :: cs =>
    if isAsciiAlpha c then
      (if prevAlpha then pyLowerChar c else pyUpperChar c) :: pyTitleGo true cs
    else c :: pyTitleGo false cs

def pyTitle (l : List Char) : List Char := pyTitleGo false l

/-- `path.name.replace("-", " ").title()` (line 156). -/
def mkTitle (name : List Char) : List Char := pyTitle (pyReplaceHyphen name)

/-- The text a successful read produced (meaningful only when
`e.read = .ok _`). -/
def contentOf (e : FileEntry) : List Char :=
  match e.read with
  | .ok text => text
  | _ => []

/-- The `PostSample` built for an accepted file (line 157). -/
def mkSample (max_chars : Nat) (e : FileEntry) : PostSample :=
  { title := mkTitle e.name
    text := sanitize_text (contentOf e) max_chars
    path := e.path }

/-- The `for path in files` loop of `collect_samples` (lines 148-159):
`acc` holds the samples collected so far, most recent last (reversed on
return).  A `UnicodeDecodeError` skips the file; any other read error
escalates; an empty-after-strip snippet skips the file; the loop stops as
soon as `max_posts` samples are collected. -/
def collectLoop (max_posts max_chars : Nat) :
    List FileEntry → List PostSample → Except FsError (List PostSample)
  | [], acc => .ok acc.reverse
  | e :: rest, acc =>
    match e.read with
    | .osError => .error .osError
    | .decodeError => collectLoop max_posts max_chars rest acc
    | .ok content =>
      let snippet := sanitize_text content max_chars
      if strip snippet = [] then collectLoop max_posts max_chars rest acc
      else
        let s := mkSample max_chars e
        if max_posts ≤ acc.length + 1 then .ok (s :: acc).reverse
        else collectLoop max_posts max_chars rest (s :: acc)

/-- A corpus: the recursive file listing of `blogs/<host>` for each host
(`none` when the directory does not exist). -/
def Corpus := List Char → Option (List FileEntry)

/-- `collect_samples` (lines 135-160).  `sorted(..., key=..., reverse=True)`
evaluates the stat of every file (any failure escalates) and is a stable
descending sort by modification time; `List.mergeSort` with the
larger-or-equal-key-first comparison is exactly that. -/
def collect_samples (corpus : Corpus) (host : List Char)
    (max_posts max_chars : Nat) : Except FsError (List PostSample) :=
  match corpus host with
  | none => .ok []
  | some entries =>
    if entries.all (fun e => e.stat.isSome) then
      collectLoop max_posts max_chars
        (entries.mergeSort (fun a b => decide (mtimeKey b ≤ mtimeKey a))) []
    else .error .osError

/-! ## Prompt assembler (`generate_style_prompt`, lines 219-275)

The OpenAI client call is an external collaborator: it is modelled as an
oracle from the constructed chat request to a response.  The component's own
contract — building the two-role message pair and extracting the first
choice's text — is embedded from the source. -/

structure ChatMessage where
  role : List Char
  content : List Char
deriving DecidableEq

structure ChatRequest where
  model : List Char
  temperature : ℚ
  messages : List ChatMessage
deriving DecidableEq

/-- One element of `response.choices`; `content = none` models a response
whose `message.content` is `None` (the `.strip()` then raises
`AttributeError`). -/
structure LlmChoice where
  content : Option (List Char)
deriving DecidableEq

structure LlmResponse where
  choices : List LlmChoice
deriving DecidableEq

/-- `f"### Sample {idx + 1}: {sample.title}\n{sample.text}"` (line 229). -/
def sampleBlock (idx : Nat) (s : PostSample) : List Char :=
  ("### Sample ").data ++ (toString (idx + 1)).data ++ (": ").data ++
    s.title ++ '\n' :: s.text

/-- `sample_payload` (lines 228-231): blocks joined by a blank line. -/
def samplePayload (samples : List PostSample) : List Char :=
  List.intercalate ['\n', '\n']
    (samples.enum.map (fun p => sampleBlock p.1 p.2))

/-- Python `str` of the rounded average.  Python prints float digits; the
exact digit string is observed by no claim, so a num/den rendering stands in
for it. -/
def pyStrRat (q : ℚ) : List Char :=
  (toString q.num).data ++ '/' :: (toString q.den).data

/-- Python `repr` of one keyword inside the list rendering. -/
def pyReprStr (w : List Char) : List Char :=
  apostropheChar :: w ++ [apostropheChar]

/-- Python `str` of the keyword list, e.g. `['a', 'b']`. -/
def pyStrKeywords (ws : List (List Char)) : List Char :=
  '[' :: List.intercalate (", ").data (ws.map pyReprStr) ++ [']']

/-- `f"- {key.replace('_', ' ').title()}: {value}"` (line 234). -/
def metricLine (key value : List Char) : List Char :=
  ("- ").data ++ pyTitle (key.map (fun c => if c = '_' then ' ' else c)) ++
    (": ").data ++ value

/-- `metrics_summary` (lines 233-236): one line per metric, dict insertion
order. -/
def metricsSummary (m : CorpusMetrics) : List Char :=
  List.intercalate ['\n']
    [metricLine ("avg_sentence_length").data (pyStrRat m.avg_sentence_length),
      metricLine ("top_keywords").data (pyStrKeywords m.top_keywords),
      metricLine ("sample_count").data (toString m.sample_count).data,
      metricLine ("total_tokens").data (toString m.total_tokens).data]

/-- The fixed system instruction (lines 240-245). -/
def systemContent : List Char :=
  ("You are StyleGen, an editorial analyst. Analyze writing samples and craft a detailed prompt that enables another writer to emulate the source style.").data

/-- The user instruction (lines 247-261). -/
def userContent (host : List Char) (samples : List PostSample)
    (metrics : CorpusMetrics) : List Char :=
  ("Source publication: ").data ++ host ++ ('\n' :: '\n' :: []) ++
    ("Here are lightly cleaned excerpts from recent posts:\n").data ++
    samplePayload samples ++ ('\n' :: '\n' :: []) ++
    ("Observational metrics:\n").data ++
    metricsSummary metrics ++ ('\n' :: '\n' :: []) ++
    ("Task: Produce an exhaustive 'write-like' prompt. Organize it into sections covering voice, tone, pacing, structure, rhetorical patterns, vocabulary, editorial rules, dos and don'ts, and a short checklist. Conclude with a short sample paragraph that demonstrates the style.").data

/-- The two-role message pair (lines 238-262). -/
def buildMessages (host : List Char) (samples : List PostSample)
    (metrics : CorpusMetrics) : List ChatMessage :=
  [{ role := ("system").data, content := systemContent },
    { role := ("user").data, content := userContent host samples metrics }]

inductive ServiceError where
  /-- `OPENAI_API_KEY` missing (HTTP 500, lines 278-284). -/
  | configurationMissing
  /-- URL scheme/host validation failure (HTTP 400, lines 79-84). -/
  | badUrl
  /-- The scraper subprocess failed (HTTP 500, lines 126-132). -/
  | scraperFailed
  /-- No posts found under `blogs/<host>` (HTTP 404, lines 91-95). -/
  | noSamplesFound (host : List Char)
  /-- The model returned no usable response (HTTP 502, lines 270-275). -/
  | generationFailure
  /-- An uncaught filesystem exception escaped the selector. -/
  | osError
deriving DecidableEq

/-- The HTTP status each failure surfaces with. -/
def statusCode : ServiceError → Nat
  | .configurationMissing => 500
  | .badUrl => 400
  | .scraperFailed => 500
  | .noSamplesFound _ => 404
  | .generationFailure => 502
  | .osError => 500

/-- `response.choices[0].message.content.strip()` with `IndexError` /
`AttributeError` turned into the 502 failure (lines 270-275). -/
def extractContent (r : LlmResponse) : Except ServiceError (List Char) :=
  match r.choices.head? with
  | none => .error .generationFailure
  | some choice =>
    match choice.content with
    | none => .error .generationFailure
    | some text => .ok (strip text)

/-- `generate_style_prompt` (lines 219-275): build the request, call the
oracle, extract the first choice's text. -/
def generate_style_prompt (llm : ChatRequest → LlmResponse) (host : List Char)
    (samples : List PostSample) (metrics : CorpusMetrics)
    (model : List Char) (temperature : ℚ) : Except ServiceError (List Char) :=
  extractContent (llm
    { model := model
      temperature := temperature
      messages := buildMessages host samples metrics })

/-! ## Pipeline orchestrator (`create_style_profile`, lines 73-112) -/

/-- The `urlparse` result fields the orchestrator inspects. -/
structure ParsedUrl where
  scheme : List Char
  netloc : List Char
deriving DecidableEq

/-- `StyleProfileRequest` (lines 29-37) after boundary validation of the
numeric ranges (`max_posts ∈ [1,15]`, `max_chars_per_post ∈ [500,8000]`). -/
structure StyleProfileRequest where
  substack_url : ParsedUrl
  max_posts : Nat
  max_chars_per_post : Nat
  model : List Char
  temperature : ℚ

/-- `StyleProfileResponse` (lines 40-43). -/
structure StyleProfileResponse where
  style_prompt : List Char
  metrics : CorpusMetrics
  samples_used : List (List Char)
deriving DecidableEq

/-- The process environment an invocation observes: whether the API key is
set, whether the scraper subprocess succeeds, and the corpus directory state
it leaves behind. -/
structure Env where
  apiKeyPresent : Bool
  scrapeOk : Bool
  corpus : Corpus

/-- `parsed.scheme.startswith("http")` (line 79). -/
def startsWithHttp (s : List Char) : Bool := decide (s.take 4 = ("http").data)

/-- `create_style_profile` (lines 73-112): key check, URL validation,
scraper run, sample selection, summarization, prompt generation.  Every
failure is terminal — there is no retry anywhere in the function. -/
def create_style_profile (llm : ChatRequest → LlmResponse) (env : Env)
    (req : StyleProfileRequest) : Except ServiceError StyleProfileResponse :=
  if env.apiKeyPresent = false then .error .configurationMissing
  else if startsWithHttp req.substack_url.scheme = false then .error .badUrl
  else if req.substack_url.netloc = [] then .error .badUrl
  else if env.scrapeOk = false then .error .scraperFailed
  else
    match collect_samples env.corpus req.substack_url.netloc
      req.max_posts req.max_chars_per_post with
    | .error _ => .error .osError
    | .ok [] => .error (.noSamplesFound req.substack_url.netloc)
    | .ok (s :: rest) =>
      let samples := s :: rest
      let metrics := summarize_corpus samples
      match generate_style_prompt llm req.substack_url.netloc samples metrics
        req.model req.temperature with
      | .error e => .error e
      | .ok text =>
        .ok { style_prompt := text
              metrics := metrics
              samples_used := samples.map PostSample.path }

/-- The recorded modification time of the listed file with identifier `p`
(0 if absent); unambiguous when the listing's paths are pairwise distinct, as
they are in a real directory listing. -/
def mtimeAt (entries : List FileEntry) (p : List Char) : Int :=
  match entries.find? (fun e => decide (e.path = p)) with
  | some e => mtimeKey e
  | none => 0

/-! ## Concrete fixtures used to instantiate the properties -/

/-- A readable scraped file, most recently modified. -/
def sampleEntryA : FileEntry :=
  { name := ("my-first-post.txt").data
    path := ("example.substack.com/my-first-post.txt").data
    stat := some 300
    read := .ok ("Hello there, friends. This is a wonderful day.").data }

/-- A readable scraped file with the middle modification time. -/
def sampleEntryB : FileEntry :=
  { name := ("second-post.txt").data
    path := ("example.substack.com/second-post.txt").data
    stat := some 200
    read := .ok ("Wonderful words appear. Wonderful indeed!").data }

/-- A readable scraped file, least recently modified. -/
def sampleEntryC : FileEntry :=
  { name := ("third-post.txt").data
    path := ("example.substack.com/third-post.txt").data
    stat := some 100
    read := .ok ("A third piece of writing, rather plain.").data }

/-- A corpus whose host directory lists three readable files with pairwise
distinct modification times, in non-sorted enumeration order. -/
def corpusABC : Corpus := fun h =>
  if h = ("example.substack.com").data then
    some [sampleEntryC, sampleEntryA, sampleEntryB]
  else none

/-- An undecodable (binary) file — its read raises `UnicodeDecodeError`. -/
def decodeEntry : FileEntry :=
  { name := ("img.png").data
    path := ("example.substack.com/img.png").data
    stat := some 250
    read := .decodeError }

/-- An unreadable file — its read raises an `OSError`. -/
def osErrorEntry : FileEntry :=
  { name := ("locked.txt").data
    path := ("example.substack.com/locked.txt").data
    stat := some 240
    read := .osError }

/-- A file whose stat fails while the sort key is computed. -/
def statNoneEntry : FileEntry :=
  { name := ("ghost.txt").data
    path := ("example.substack.com/ghost.txt").data
    stat := none
    read := .ok ("gone").data }

/-- A corpus containing a file whose stat fails. -/
def corpusStatNone : Corpus := fun h =>
  if h = ("example.substack.com").data then some [sampleEntryA, statNoneEntry]
  else none

/-- A corpus whose host directory holds exactly one readable file. -/
def corpusSingleA : Corpus := fun h =>
  if h = ("example.substack.com").data then some [sampleEntryA] else none

/-- The corpus of a publication whose directory does not exist. -/
def emptyCorpus : Corpus := fun _ => none

/-- A well-formed parsed publication URL. -/
def goodUrl : ParsedUrl :=
  { scheme := ("https").data, netloc := ("example.substack.com").data }

/-- A boundary-valid request. -/
def defaultRequest : StyleProfileRequest :=
  { substack_url := goodUrl
    max_posts := 2
    max_chars_per_post := 2000
    model := ("gpt-4o-mini").data
    temperature := 7 / 10 }

/-- An environment with the key set and a successful scrape over the given
corpus. -/
def envWith (c : Corpus) : Env :=
  { apiKeyPresent := true, scrapeOk := true, corpus := c }

/-- A generative oracle that always answers with zero choices. -/
def noChoices : ChatRequest → LlmResponse := fun _ => { choices := [] }

/-- A sample whose text carries a single distinct keyword candidate. -/
def wonderSample : PostSample :=
  { title := ("Wonder").data
    text := ("Wonderful. Wonderful!").data
    path := ("example.substack.com/wonder.txt").data }

/-! ## Properties -/

theorem isPySpace_wsChar (c : Char) : isPySpace (wsChar c) = isPySpace c := by
  unfold wsChar
  split
  · next h => rw [h]; decide
  · rfl

theorem collapseWs_cons_not_ws {c : Char} (h : isPySpace c = false) :
    ∀ rest, ∃ tl, collapseWs (c :: rest) = c :: tl := by
  intro rest
  match rest with
  | [] => exact ⟨[], by simp [collapseWs, h]⟩
  | d :: rest' => exact ⟨collapseWs (d :: rest'), by simp [collapseWs, h, wsChar]⟩

theorem noWsRun_collapseWs : ∀ l, NoWsRun (collapseWs l)
  | [] => List.chain'_nil
  | [c] => by
    unfold collapseWs
    split <;> exact List.chain'_singleton _
  | c₁ :: c₂ :: rest => by
    unfold collapseWs
    split
    · exact noWsRun_collapseWs (c₂ :: rest)
    · next hnot =>
      unfold NoWsRun
      rw [List.chain'_cons']
      refine ⟨?_, noWsRun_collapseWs (c₂ :: rest)⟩
      intro y hy
      by_cases h₁ : isPySpace c₁ = true
      · have h₂ : isPySpace c₂ = false := by
          cases h₂ : isPySpace c₂ with
          | false => rfl
          | true => simp [h₁, h₂] at hnot
        obtain ⟨tl, htl⟩ := collapseWs_cons_not_ws h₂ rest
        rw [htl] at hy
        simp only [List.head?_cons, Option.mem_def, Option.some.injEq] at hy
        right
        rw [← hy]
        exact h₂
      · left
        simp only [Bool.not_eq_true] at h₁
        simp [h₁]

theorem noWsRun_reverse {l : List Char} (h : NoWsRun l) : NoWsRun l.reverse := by
  rw [NoWsRun, List.chain'_reverse]
  exact h.imp fun a b hab => hab.symm

theorem noWsRun_append_left {l₁ l₂ : List Char} (h : NoWsRun (l₁ ++ l₂)) :
    NoWsRun l₁ :=
  (List.chain'_append.mp h).1

theorem noWsRun_append_right {l₁ l₂ : List Char} (h : NoWsRun (l₁ ++ l₂)) :
    NoWsRun l₂ :=
  (List.chain'_append.mp h).2.1

theorem noWsRun_dropWhile {p : Char → Bool} {l : List Char} (h : NoWsRun l) :
    NoWsRun (l.dropWhile p) := by
  have := List.takeWhile_append_dropWhile p l
  exact noWsRun_append_right (this ▸ h)

theorem noWsRun_take {l : List Char} (n : Nat) (h : NoWsRun l) :
    NoWsRun (l.take n) := by
  have := List.take_append_drop n l
  exact noWsRun_append_left (this ▸ h)

theorem noWsRun_lstrip {l : List Char} (h : NoWsRun l) : NoWsRun (lstrip l) :=
  noWsRun_dropWhile h

theorem noWsRun_rstrip {l : List Char} (h : NoWsRun l) : NoWsRun (rstrip l) :=
  noWsRun_reverse (noWsRun_dropWhile (noWsRun_reverse h))

theorem noWsRun_condense (t : List Char) : NoWsRun (condense t) :=
  noWsRun_rstrip (noWsRun_lstrip (noWsRun_collapseWs t))

theorem rstrip_length_le (l : List Char) : (rstrip l).length ≤ l.length := by
  unfold rstrip
  rw [List.length_reverse]
  calc (l.reverse.dropWhile isPySpace).length
      ≤ l.reverse.length := (List.dropWhile_sublist _).length_le
    _ = l.length := List.length_reverse l

theorem dropWhile_length_of_noWsRun : ∀ {l : List Char}, NoWsRun l →
    l.length ≤ (l.dropWhile isPySpace).length + 1
  | [], _ => by simp
  | [c], _ => by
    by_cases h : isPySpace c = true <;> simp [List.dropWhile, h]
  | c₁ :: c₂ :: rest, h => by
    rw [NoWsRun, List.chain'_cons] at h
    by_cases h₁ : isPySpace c₁ = true
    · have h₂ : isPySpace c₂ = false := by
        rcases h.1 with h' | h'
        · rw [h'] at h₁; cases h₁
        · exact h'
      rw [List.dropWhile_cons, if_pos h₁, List.dropWhile_cons, if_neg (by simp [h₂])]
      simp
    · rw [List.dropWhile_cons, if_neg h₁]
      exact Nat.le_succ _

theorem rstrip_length_ge {l : List Char} (h : NoWsRun l) :
    l.length ≤ (rstrip l).length + 1 := by
  unfold rstrip
  rw [List.length_reverse]
  calc l.length = l.reverse.length := (List.length_reverse l).symm
    _ ≤ (l.reverse.dropWhile isPySpace).length + 1 :=
        dropWhile_length_of_noWsRun (noWsRun_reverse h)

theorem pyTake_nonneg {l : List Char} {k : Int} (h : 0 ≤ k) :
    pyTake l k = l.take k.toNat := by
  simp [pyTake, h]

/-- On any input and any budget `max_chars ≥ 3`, the normalizer's output fits
the budget. -/
theorem sanitize_text_length_le (text : List Char) (max_chars : Nat)
    (h : 3 ≤ max_chars) : (sanitize_text text max_chars).length ≤ max_chars := by
  simp only [sanitize_text]
  split
  · next hle => exact hle
  · next hgt =>
    rw [List.length_append]
    have h0 : (0 : Int) ≤ (max_chars : Int) - 3 := by omega
    rw [pyTake_nonneg h0]
    have htn : ((max_chars : Int) - 3).toNat = max_chars - 3 := by omega
    rw [htn]
    have h1 : (rstrip ((condense text).take (max_chars - 3))).length ≤ max_chars - 3 := by
      calc (rstrip ((condense text).take (max_chars - 3))).length
          ≤ ((condense text).take (max_chars - 3)).length := rstrip_length_le _
        _ ≤ max_chars - 3 := by rw [List.length_take]; omega
    have h2 : ellipsis.length = 3 := rfl
    omega

/-- C1, amended.  For `max_chars ≥ 4` the output length is at most
`max_chars`, and when the collapsed input exceeds the budget the output ends
with the ellipsis marker and has length `max_chars` or `max_chars - 1` (the
`rstrip()` before appending the marker can delete one space at the cut). -/
theorem C1_truncation_bounds (text : List Char) (max_chars : Nat)
    (h : 4 ≤ max_chars) :
    (sanitize_text text max_chars).length ≤ max_chars ∧
    (max_chars < (condense text).length →
      ellipsis <:+ sanitize_text text max_chars ∧
      max_chars - 1 ≤ (sanitize_text text max_chars).length) := by
  refine ⟨sanitize_text_length_le text max_chars (by omega), ?_⟩
  intro hgt
  have hnle : ¬ (condense text).length ≤ max_chars := by omega
  simp only [sanitize_text, if_neg hnle]
  constructor
  · exact List.suffix_append _ _
  · rw [List.length_append]
    have h0 : (0 : Int) ≤ (max_chars : Int) - 3 := by omega
    rw [pyTake_nonneg h0]
    have htn : ((max_chars : Int) - 3).toNat = max_chars - 3 := by omega
    rw [htn]
    have hslice : ((condense text).take (max_chars - 3)).length = max_chars - 3 := by
      rw [List.length_take]; omega
    have hge := rstrip_length_ge (noWsRun_take (max_chars - 3) (noWsRun_condense text))
    rw [hslice] at hge
    have h2 : ellipsis.length = 3 := rfl
    omega

/-- C1 as stated is false: with `max_chars = 5 ≥ 4` and raw text `"a bcde"`
(collapsed length 6, so truncation occurs), the output is `"a..."` of length 4,
not 5 — the slice `"a "` loses its trailing space to `rstrip()`. -/
theorem C1_exact_length_counterexample :
    4 ≤ 5 ∧ 5 < (condense ("a bcde".data)).length ∧
    (sanitize_text ("a bcde".data) 5).length ≠ 5 := by decide

theorem C1_truncation_bounds_witness :
    (4 ≤ 5 ∧ 5 < (condense ("aaaaaaaa".data)).length) ∧
    (sanitize_text ("aaaaaaaa".data) 5).length ≤ 5 ∧
    ellipsis <:+ sanitize_text ("aaaaaaaa".data) 5 ∧
    5 - 1 ≤ (sanitize_text ("aaaaaaaa".data) 5).length :=
  ⟨⟨by decide, by decide⟩,
   (C1_truncation_bounds ("aaaaaaaa".data) 5 (by decide)).1,
   ((C1_truncation_bounds ("aaaaaaaa".data) 5 (by decide)).2 (by decide)).1,
   ((C1_truncation_bounds ("aaaaaaaa".data) 5 (by decide)).2 (by decide)).2⟩

theorem wsChar_idem (c : Char) : wsChar (wsChar c) = wsChar c := by
  by_cases h : isPySpace c = true <;> simp [wsChar, h]

theorem map_wsChar_idem (l : List Char) :
    (l.map wsChar).map wsChar = l.map wsChar := by
  induction l with
  | nil => rfl
  | cons c t ih => simp only [List.map_cons, wsChar_idem, ih]

theorem collapseWs_of_noWsRun : ∀ {l : List Char}, NoWsRun l →
    collapseWs l = l.map wsChar
  | [], _ => rfl
  | [c], _ => by by_cases h : isPySpace c = true <;> simp [collapseWs, wsChar, h]
  | c₁ :: c₂ :: rest, h => by
    rw [NoWsRun, List.chain'_cons] at h
    have hne : (isPySpace c₁ && isPySpace c₂) = false := by
      rcases h.1 with h' | h' <;> simp [h']
    have ih := @collapseWs_of_noWsRun (c₂ :: rest) h.2
    simp only [collapseWs, hne, Bool.false_eq_true, if_false, ih, List.map_cons]
    rfl

theorem lstrip_eq_of_head {l : List Char}
    (h : ∀ c ∈ l.head?, isPySpace c = false) : lstrip l = l := by
  cases l with
  | nil => rfl
  | cons c t =>
    have hc := h c (by simp)
    simp [lstrip, List.dropWhile_cons, hc]

theorem rstrip_eq_of_getLast {l : List Char}
    (h : ∀ c ∈ l.getLast?, isPySpace c = false) : rstrip l = l := by
  unfold rstrip
  have h' : ∀ c ∈ l.reverse.head?, isPySpace c = false := by
    intro c hc
    exact h c (by rwa [List.head?_reverse] at hc)
  rw [show l.reverse.dropWhile isPySpace = l.reverse from lstrip_eq_of_head h']
  exact List.reverse_reverse l

theorem head_not_ws_of_lstrip_eq {l : List Char} (h : lstrip l = l) :
    ∀ c ∈ l.head?, isPySpace c = false := by
  cases l with
  | nil => intro c hc; cases hc
  | cons c t =>
    intro d hd
    simp only [List.head?_cons, Option.mem_def, Option.some.injEq] at hd
    subst hd
    by_contra hws
    simp only [Bool.not_eq_false] at hws
    rw [lstrip, List.dropWhile_cons, if_pos hws] at h
    have hdw : (t.dropWhile isPySpace).length ≤ t.length :=
      (List.dropWhile_sublist isPySpace).length_le
    have := congrArg List.length h
    simp at this
    omega

theorem last_not_ws_of_rstrip_eq {l : List Char} (h : rstrip l = l) :
    ∀ c ∈ l.getLast?, isPySpace c = false := by
  intro c hc
  have hrev : lstrip l.reverse = l.reverse := by
    unfold rstrip at h
    have := congrArg List.reverse h
    rwa [List.reverse_reverse] at this
  exact head_not_ws_of_lstrip_eq hrev c (by rwa [List.head?_reverse])

/-- A collapsed, stripped string that fits the budget passes through the
normalizer with only the per-character whitespace renaming applied. -/
theorem sanitize_of_clean {t : List Char} {m : Nat}
    (hrun : NoWsRun t) (hhead : ∀ c ∈ t.head?, isPySpace c = false)
    (hlast : ∀ c ∈ t.getLast?, isPySpace c = false) (hlen : t.length ≤ m) :
    sanitize_text t m = t.map wsChar := by
  have hmh : ∀ c ∈ (t.map wsChar).head?, isPySpace c = false := by
    intro c hc
    rw [List.head?_map] at hc
    simp only [Option.mem_def, Option.map_eq_some'] at hc
    obtain ⟨d, hd, rfl⟩ := hc
    rw [isPySpace_wsChar]
    exact hhead d hd
  have hml : ∀ c ∈ (t.map wsChar).getLast?, isPySpace c = false := by
    intro c hc
    rw [List.getLast?_map] at hc
    simp only [Option.mem_def, Option.map_eq_some'] at hc
    obtain ⟨d, hd, rfl⟩ := hc
    rw [isPySpace_wsChar]
    exact hlast d hd
  have hcond : condense t = t.map wsChar := by
    unfold condense strip
    rw [collapseWs_of_noWsRun hrun,
      show lstrip (t.map wsChar) = t.map wsChar from lstrip_eq_of_head hmh,
      rstrip_eq_of_getLast hml]
  simp only [sanitize_text, hcond]
  rw [if_pos (by simpa using hlen)]

/-- C9: the normalizer is idempotent on inputs with no whitespace runs, no
leading/trailing whitespace, and length within the budget. -/
theorem C9_normalize_idempotent (t : List Char) (m : Nat)
    (hrun : NoWsRun t) (hhead : lstrip t = t) (hlast : rstrip t = t)
    (hlen : t.length ≤ m) :
    sanitize_text (sanitize_text t m) m = sanitize_text t m := by
  have hh := head_not_ws_of_lstrip_eq hhead
  have hl := last_not_ws_of_rstrip_eq hlast
  have h1 := sanitize_of_clean hrun hh hl hlen
  have hrun' : NoWsRun (t.map wsChar) := by
    rw [NoWsRun, List.chain'_map]
    exact hrun.imp fun a b hab => by rwa [isPySpace_wsChar, isPySpace_wsChar]
  have hmh : ∀ c ∈ (t.map wsChar).head?, isPySpace c = false := by
    intro c hc
    rw [List.head?_map] at hc
    simp only [Option.mem_def, Option.map_eq_some'] at hc
    obtain ⟨d, hd, rfl⟩ := hc
    rw [isPySpace_wsChar]
    exact hh d hd
  have hml : ∀ c ∈ (t.map wsChar).getLast?, isPySpace c = false := by
    intro c hc
    rw [List.getLast?_map] at hc
    simp only [Option.mem_def, Option.map_eq_some'] at hc
    obtain ⟨d, hd, rfl⟩ := hc
    rw [isPySpace_wsChar]
    exact hl d hd
  have h2 := sanitize_of_clean hrun' hmh hml (by simpa using hlen)
  rw [h1, h2, map_wsChar_idem]

theorem C9_normalize_idempotent_witness :
    (NoWsRun ("ab cd".data) ∧ lstrip ("ab cd".data) = "ab cd".data ∧
      rstrip ("ab cd".data) = "ab cd".data ∧ ("ab cd".data).length ≤ 10) ∧
    sanitize_text (sanitize_text ("ab cd".data) 10) 10 =
      sanitize_text ("ab cd".data) 10 :=
  ⟨⟨by decide, by decide, by decide, by decide⟩,
   C9_normalize_idempotent ("ab cd".data) 10
     (by decide) (by decide) (by decide) (by decide)⟩
/-! ## Equation lemmas for the selection loop -/

theorem collectLoop_nil (mp mc : Nat) (acc : List PostSample) :
    collectLoop mp mc [] acc = .ok acc.reverse := rfl

theorem collectLoop_cons_os {e : FileEntry} (h : e.read = .osError)
    (mp mc : Nat) (rest : List FileEntry) (acc : List PostSample) :
    collectLoop mp mc (e :: rest) acc = .error .osError := by
  simp [collectLoop, h]

theorem collectLoop_cons_decode {e : FileEntry} (h : e.read = .decodeError)
    (mp mc : Nat) (rest : List FileEntry) (acc : List PostSample) :
    collectLoop mp mc (e :: rest) acc = collectLoop mp mc rest acc := by
  simp [collectLoop, h]

theorem collectLoop_cons_empty {e : FileEntry} {content : List Char} {mc : Nat}
    (h : e.read = .ok content) (hs : strip (sanitize_text content mc) = [])
    (mp : Nat) (rest : List FileEntry) (acc : List PostSample) :
    collectLoop mp mc (e :: rest) acc = collectLoop mp mc rest acc := by
  simp [collectLoop, h, hs]

theorem collectLoop_cons_take {e : FileEntry} {content : List Char}
    {mp mc : Nat} {acc : List PostSample}
    (h : e.read = .ok content) (hs : ¬ strip (sanitize_text content mc) = [])
    (hfull : mp ≤ acc.length + 1) (rest : List FileEntry) :
    collectLoop mp mc (e :: rest) acc = .ok (mkSample mc e :: acc).reverse := by
  simp [collectLoop, h, hs, hfull]

theorem collectLoop_cons_grow {e : FileEntry} {content : List Char}
    {mp mc : Nat} {acc : List PostSample}
    (h : e.read = .ok content) (hs : ¬ strip (sanitize_text content mc) = [])
    (hnfull : ¬ mp ≤ acc.length + 1) (rest : List FileEntry) :
    collectLoop mp mc (e :: rest) acc =
      collectLoop mp mc rest (mkSample mc e :: acc) := by
  simp [collectLoop, h, hs, hnfull]

/-- The loop never returns more than `max_posts` samples, provided it starts
below the bound (the break test happens only after an append, so
`max_posts = 0` would still yield one sample — the request boundary
guarantees `max_posts ≥ 1`). -/
theorem collectLoop_length_le (mp mc : Nat) :
    ∀ (files : List FileEntry) (acc out : List PostSample),
      acc.length < mp →
      collectLoop mp mc files acc = .ok out →
      out.length ≤ mp
  | [], acc, out, hlt, h => by
    rw [collectLoop_nil] at h
    cases h
    simp only [List.length_reverse]
    omega
  | e :: rest, acc, out, hlt, h => by
    cases hre : e.read with
    | osError => rw [collectLoop_cons_os hre] at h; cases h
    | decodeError =>
      rw [collectLoop_cons_decode hre] at h
      exact collectLoop_length_le mp mc rest acc out hlt h
    | ok content =>
      by_cases hs : strip (sanitize_text content mc) = []
      · rw [collectLoop_cons_empty hre hs] at h
        exact collectLoop_length_le mp mc rest acc out hlt h
      · by_cases hfull : mp ≤ acc.length + 1
        · rw [collectLoop_cons_take hre hs hfull] at h
          cases h
          simp only [List.length_reverse, List.length_cons]
          omega
        · rw [collectLoop_cons_grow hre hs hfull] at h
          exact collectLoop_length_le mp mc rest (mkSample mc e :: acc) out
            (by simp only [List.length_cons]; omega) h

/-- Every sample the loop returns is either inherited from the accumulator or
built by `mkSample` from a file of the worklist. -/
theorem collectLoop_mem_ok (mp mc : Nat) (P : PostSample → Prop) :
    ∀ (files : List FileEntry) (acc out : List PostSample),
      (∀ e ∈ files, P (mkSample mc e)) →
      (∀ s ∈ acc, P s) →
      collectLoop mp mc files acc = .ok out →
      ∀ s ∈ out, P s
  | [], acc, out, _, hacc, h => by
    rw [collectLoop_nil] at h
    cases h
    intro s hs
    exact hacc s (List.mem_reverse.mp hs)
  | e :: rest, acc, out, hfiles, hacc, h => by
    cases hre : e.read with
    | osError => rw [collectLoop_cons_os hre] at h; cases h
    | decodeError =>
      rw [collectLoop_cons_decode hre] at h
      exact collectLoop_mem_ok mp mc P rest acc out
        (fun e' he' => hfiles e' (List.mem_cons_of_mem _ he')) hacc h
    | ok content =>
      by_cases hs : strip (sanitize_text content mc) = []
      · rw [collectLoop_cons_empty hre hs] at h
        exact collectLoop_mem_ok mp mc P rest acc out
          (fun e' he' => hfiles e' (List.mem_cons_of_mem _ he')) hacc h
      · by_cases hfull : mp ≤ acc.length + 1
        · rw [collectLoop_cons_take hre hs hfull] at h
          cases h
          intro s hs'
          rw [List.mem_reverse] at hs'
          rcases List.mem_cons.mp hs' with rfl | hmem
          · exact hfiles e (List.mem_cons_self e rest)
          · exact hacc s hmem
        · rw [collectLoop_cons_grow hre hs hfull] at h
          refine collectLoop_mem_ok mp mc P rest (mkSample mc e :: acc) out
            (fun e' he' => hfiles e' (List.mem_cons_of_mem _ he')) ?_ h
          intro s hs'
          rcases List.mem_cons.mp hs' with rfl | hmem
          · exact hfiles e (List.mem_cons_self e rest)
          · exact hacc s hmem

/-- The returned samples extend the accumulator with the images of a sublist
of the worklist, in worklist order. -/
theorem collectLoop_sublist (mp mc : Nat) :
    ∀ (files : List FileEntry) (acc out : List PostSample),
      collectLoop mp mc files acc = .ok out →
      ∃ sub : List FileEntry, sub.Sublist files ∧
        out = acc.reverse ++ sub.map (mkSample mc)
  | [], acc, out, h => by
    rw [collectLoop_nil] at h
    cases h
    exact ⟨[], List.nil_sublist _, by simp⟩
  | e :: rest, acc, out, h => by
    cases hre : e.read with
    | osError => rw [collectLoop_cons_os hre] at h; cases h
    | decodeError =>
      rw [collectLoop_cons_decode hre] at h
      obtain ⟨sub, hsub, hout⟩ := collectLoop_sublist mp mc rest acc out h
      exact ⟨sub, hsub.cons e, hout⟩
    | ok content =>
      by_cases hs : strip (sanitize_text content mc) = []
      · rw [collectLoop_cons_empty hre hs] at h
        obtain ⟨sub, hsub, hout⟩ := collectLoop_sublist mp mc rest acc out h
        exact ⟨sub, hsub.cons e, hout⟩
      · by_cases hfull : mp ≤ acc.length + 1
        · rw [collectLoop_cons_take hre hs hfull] at h
          cases h
          exact ⟨[e], (List.nil_sublist rest).cons₂ e, by simp⟩
        · rw [collectLoop_cons_grow hre hs hfull] at h
          obtain ⟨sub, hsub, hout⟩ :=
            collectLoop_sublist mp mc rest (mkSample mc e :: acc) out h
          refine ⟨e :: sub, hsub.cons₂ e, ?_⟩
          rw [hout]
          simp

/-- C2: with a boundary-valid request (`max_posts ≥ 1`; `max_chars ≥ 500
` at the boundary, only `≥ 3` is needed), a successful selection returns at
most `max_posts` samples, each within the character budget, and a missing
publication directory yields the empty list, not an error. -/
theorem C2_select_bounds (corpus : Corpus) (host : List Char)
    (max_posts max_chars : Nat) (h1 : 1 ≤ max_posts) (h3 : 3 ≤ max_chars) :
    (∀ out, collect_samples corpus host max_posts max_chars = .ok out →
      out.length ≤ max_posts ∧ ∀ s ∈ out, s.text.length ≤ max_chars) ∧
    (corpus host = none →
      collect_samples corpus host max_posts max_chars = .ok []) := by
  constructor
  · intro out hout
    unfold collect_samples at hout
    cases hdir : corpus host with
    | none =>
      rw [hdir] at hout
      cases hout
      simp
    | some entries =>
      rw [hdir] at hout
      dsimp only at hout
      by_cases hstat : entries.all (fun e => e.stat.isSome) = true
      · rw [if_pos hstat] at hout
        refine ⟨collectLoop_length_le max_posts max_chars _ [] out
          (by simpa using h1) hout, ?_⟩
        exact collectLoop_mem_ok max_posts max_chars
          (fun s => s.text.length ≤ max_chars) _ [] out
          (fun e _ => sanitize_text_length_le (contentOf e) max_chars h3)
          (by intro s hs; cases hs) hout
      · rw [if_neg hstat] at hout
        cases hout
  · intro hdir
    unfold collect_samples
    rw [hdir]

theorem C2_select_bounds_witness :
    (1 ≤ 5 ∧ 3 ≤ 500) ∧
    ((fun _ => none : Corpus) ("example.substack.com").data = none →
      collect_samples (fun _ => none) (("example.substack.com").data) 5 500 =
        .ok []) :=
  ⟨⟨by decide, by decide⟩,
   (C2_select_bounds (fun _ => none) (("example.substack.com").data) 5 500
     (by decide) (by decide)).2⟩
/-! ## Recency ordering of the selection -/

theorem mtimeLe_trans (a b c : FileEntry)
    (h1 : decide (mtimeKey b ≤ mtimeKey a) = true)
    (h2 : decide (mtimeKey c ≤ mtimeKey b) = true) :
    decide (mtimeKey c ≤ mtimeKey a) = true := by
  simp only [decide_eq_true_eq] at h1 h2 ⊢
  omega

theorem mtimeLe_total (a b : FileEntry) :
    (decide (mtimeKey b ≤ mtimeKey a) || decide (mtimeKey a ≤ mtimeKey b)) = true := by
  simp only [Bool.or_eq_true, decide_eq_true_eq]
  omega

/-- With pairwise-distinct modification times, the sort of `collect_samples`
puts the files in strictly decreasing modification-time order. -/
theorem mergeSort_mtime_strict {entries : List FileEntry}
    (hmt : entries.Pairwise (fun a b => mtimeKey a ≠ mtimeKey b)) :
    (entries.mergeSort (fun a b => decide (mtimeKey b ≤ mtimeKey a))).Pairwise
      (fun a b => mtimeKey b < mtimeKey a) := by
  have hsorted := @List.sorted_mergeSort _
    (fun a b => decide (mtimeKey b ≤ mtimeKey a))
    mtimeLe_trans mtimeLe_total entries
  have hperm := List.mergeSort_perm entries
    (fun a b => decide (mtimeKey b ≤ mtimeKey a))
  have hne : (entries.mergeSort
      (fun a b => decide (mtimeKey b ≤ mtimeKey a))).Pairwise
      (fun a b => mtimeKey a ≠ mtimeKey b) :=
    hperm.symm.pairwise hmt (fun h heq => h heq.symm)
  exact hsorted.imp₂
    (fun a b hle hne' => by simp only [decide_eq_true_eq] at hle; omega) hne

theorem mergeSort_corpusABC :
    [sampleEntryC, sampleEntryA, sampleEntryB].mergeSort
      (fun a b => decide (mtimeKey b ≤ mtimeKey a)) =
      [sampleEntryA, sampleEntryB, sampleEntryC] := by
  have hanti : IsAntisymm FileEntry (fun a b => mtimeKey b < mtimeKey a) :=
    ⟨fun a b h1 h2 => absurd h1 (by omega)⟩
  refine @List.eq_of_perm_of_sorted _ (fun a b => mtimeKey b < mtimeKey a)
    hanti _ _ ?_ ?_ ?_
  · exact (List.mergeSort_perm _ _).trans (by decide)
  · exact mergeSort_mtime_strict (by decide)
  · exact (by decide : ([sampleEntryA, sampleEntryB, sampleEntryC]).Pairwise
      (fun a b => mtimeKey b < mtimeKey a))

/-- Concrete evaluation of the selection over the three-file corpus: the two
most recently modified files come back, most recent first. -/
theorem corpusABC_eval :
    collect_samples corpusABC (("example.substack.com").data) 2 2000 =
      .ok [mkSample 2000 sampleEntryA, mkSample 2000 sampleEntryB] := by
  unfold collect_samples
  rw [show corpusABC (("example.substack.com").data) =
    some [sampleEntryC, sampleEntryA, sampleEntryB] from rfl]
  dsimp only
  rw [if_pos (by decide), mergeSort_corpusABC]
  rfl

/-- C8: every accepted sample's title is the hyphens-to-spaces, title-cased
bare filename of its source file. -/
theorem C8_title_derivation (corpus : Corpus) (host : List Char)
    (entries : List FileEntry) (mp mc : Nat) (out : List PostSample)
    (hdir : corpus host = some entries)
    (h : collect_samples corpus host mp mc = .ok out) :
    ∀ s ∈ out, ∃ e ∈ entries, s.path = e.path ∧
      s.title = pyTitle (pyReplaceHyphen e.name) := by
  unfold collect_samples at h
  rw [hdir] at h
  dsimp only at h
  by_cases hstat : entries.all (fun e => e.stat.isSome) = true
  · rw [if_pos hstat] at h
    refine collectLoop_mem_ok mp mc _ _ [] out ?_ (by intro s hs; cases hs) h
    intro e he
    rw [List.mem_mergeSort] at he
    exact ⟨e, he, rfl, rfl⟩
  · rw [if_neg hstat] at h
    cases h

theorem C8_title_derivation_witness :
    (corpusABC (("example.substack.com").data) =
        some [sampleEntryC, sampleEntryA, sampleEntryB] ∧
      collect_samples corpusABC (("example.substack.com").data) 2 2000 =
        .ok [mkSample 2000 sampleEntryA, mkSample 2000 sampleEntryB]) ∧
    ∀ s ∈ [mkSample 2000 sampleEntryA, mkSample 2000 sampleEntryB],
      ∃ e ∈ [sampleEntryC, sampleEntryA, sampleEntryB], s.path = e.path ∧
        s.title = pyTitle (pyReplaceHyphen e.name) :=
  ⟨⟨rfl, corpusABC_eval⟩,
   C8_title_derivation corpusABC (("example.substack.com").data)
     [sampleEntryC, sampleEntryA, sampleEntryB] 2 2000
     [mkSample 2000 sampleEntryA, mkSample 2000 sampleEntryB]
     rfl corpusABC_eval⟩

theorem mtimeAt_of_mem {entries : List FileEntry}
    (hpath : entries.Pairwise (fun a b => a.path ≠ b.path)) :
    ∀ e ∈ entries, mtimeAt entries e.path = mtimeKey e := by
  induction entries with
  | nil => intro e he; cases he
  | cons c rest ih =>
    intro e he
    rcases List.mem_cons.mp he with rfl | hmem
    · unfold mtimeAt
      rw [List.find?_cons_of_pos _ (by simp)]
    · have hc : c.path ≠ e.path := (List.pairwise_cons.mp hpath).1 e hmem
      unfold mtimeAt
      rw [List.find?_cons_of_neg _ (by simpa using hc)]
      exact ih (List.pairwise_cons.mp hpath).2 e hmem

/-- C5: when every candidate's stat is available, the modification times are
pairwise distinct and the listed paths are distinct (a directory listing
guarantees the latter), the returned samples are ordered by modification
time, most recent first; and on the concrete three-file corpus with
`max_posts = 2` exactly the two most recently modified files come back, in
that order. -/
theorem C5_recency_order :
    (∀ (corpus : Corpus) (host : List Char) (entries : List FileEntry)
        (mp mc : Nat) (out : List PostSample),
      corpus host = some entries →
      entries.Pairwise (fun a b => mtimeKey a ≠ mtimeKey b) →
      entries.Pairwise (fun a b => a.path ≠ b.path) →
      collect_samples corpus host mp mc = .ok out →
      out.Pairwise (fun s t =>
        mtimeAt entries t.path < mtimeAt entries s.path)) ∧
    collect_samples corpusABC (("example.substack.com").data) 2 2000 =
      .ok [mkSample 2000 sampleEntryA, mkSample 2000 sampleEntryB] := by
  constructor
  · intro corpus host entries mp mc out hdir hmt hpath h
    unfold collect_samples at h
    rw [hdir] at h
    dsimp only at h
    by_cases hstat : entries.all (fun e => e.stat.isSome) = true
    · rw [if_pos hstat] at h
      obtain ⟨sub, hsub, hout⟩ := collectLoop_sublist mp mc _ [] out h
      rw [List.reverse_nil, List.nil_append] at hout
      subst hout
      rw [List.pairwise_map]
      have hstrict := mergeSort_mtime_strict hmt
      have hsubp := hstrict.sublist hsub
      refine List.Pairwise.imp_of_mem ?_ hsubp
      intro a b ha hb hlt
      have ha' : a ∈ entries := List.mem_mergeSort.mp (hsub.subset ha)
      have hb' : b ∈ entries := List.mem_mergeSort.mp (hsub.subset hb)
      show mtimeAt entries (mkSample mc b).path <
        mtimeAt entries (mkSample mc a).path
      rw [show (mkSample mc a).path = a.path from rfl,
        show (mkSample mc b).path = b.path from rfl,
        mtimeAt_of_mem hpath a ha', mtimeAt_of_mem hpath b hb']
      exact hlt
    · rw [if_neg hstat] at h
      cases h
  · exact corpusABC_eval

theorem C5_recency_order_witness :
    (corpusABC (("example.substack.com").data) =
        some [sampleEntryC, sampleEntryA, sampleEntryB] ∧
      ([sampleEntryC, sampleEntryA, sampleEntryB]).Pairwise
        (fun a b => mtimeKey a ≠ mtimeKey b) ∧
      ([sampleEntryC, sampleEntryA, sampleEntryB]).Pairwise
        (fun a b => a.path ≠ b.path)) ∧
    ([mkSample 2000 sampleEntryA, mkSample 2000 sampleEntryB]).Pairwise
      (fun s t => mtimeAt [sampleEntryC, sampleEntryA, sampleEntryB] t.path <
        mtimeAt [sampleEntryC, sampleEntryA, sampleEntryB] s.path) :=
  ⟨⟨rfl, by decide, by decide⟩,
   C5_recency_order.1 corpusABC (("example.substack.com").data)
     [sampleEntryC, sampleEntryA, sampleEntryB] 2 2000
     [mkSample 2000 sampleEntryA, mkSample 2000 sampleEntryB]
     rfl (by decide) (by decide) corpusABC_eval⟩

/-! ## Error handling -/

/-- C10: during selection, only a Unicode decode failure is recovered, by
skipping that file; an OS error on a file read, or on a stat while the sort
key is computed, is not caught and escalates out of the whole selection,
aborting the pipeline invocation. -/
theorem C10_read_error_policy (mp mc : Nat) :
    (∀ (e : FileEntry) (rest : List FileEntry) (acc : List PostSample),
      e.read = .decodeError →
      collectLoop mp mc (e :: rest) acc = collectLoop mp mc rest acc) ∧
    (∀ (e : FileEntry) (rest : List FileEntry) (acc : List PostSample),
      e.read = .osError →
      collectLoop mp mc (e :: rest) acc = .error .osError) ∧
    (∀ (corpus : Corpus) (host : List Char) (entries : List FileEntry),
      corpus host = some entries →
      (∃ e ∈ entries, e.stat = none) →
      collect_samples corpus host mp mc = .error .osError) ∧
    (∀ (llm : ChatRequest → LlmResponse) (env : Env)
        (req : StyleProfileRequest) (fe : FsError),
      env.apiKeyPresent = true →
      startsWithHttp req.substack_url.scheme = true →
      req.substack_url.netloc ≠ [] →
      env.scrapeOk = true →
      collect_samples env.corpus req.substack_url.netloc
        req.max_posts req.max_chars_per_post = .error fe →
      create_style_profile llm env req = .error .osError) := by
  refine ⟨?_, ?_, ?_, ?_⟩
  · intro e rest acc h
    exact collectLoop_cons_decode h mp mc rest acc
  · intro e rest acc h
    exact collectLoop_cons_os h mp mc rest acc
  · intro corpus host entries hdir hbad
    obtain ⟨e, he, hstat⟩ := hbad
    unfold collect_samples
    rw [hdir]
    dsimp only
    rw [if_neg]
    intro hall
    have := (List.all_eq_true.mp hall) e he
    rw [hstat] at this
    cases this
  · intro llm env req fe hkey hscheme hhost hscrape hsel
    unfold create_style_profile
    rw [if_neg (by simp [hkey]), if_neg (by simp [hscheme]), if_neg hhost,
      if_neg (by simp [hscrape]), hsel]

theorem C10_read_error_policy_witness :
    (decodeEntry.read = .decodeError ∧
      collectLoop 2 2000 [decodeEntry] [] = collectLoop 2 2000 [] []) ∧
    (osErrorEntry.read = .osError ∧
      collectLoop 2 2000 [osErrorEntry] [] = .error .osError) ∧
    ((envWith corpusStatNone).apiKeyPresent = true ∧
      startsWithHttp defaultRequest.substack_url.scheme = true ∧
      defaultRequest.substack_url.netloc ≠ [] ∧
      (envWith corpusStatNone).scrapeOk = true ∧
      collect_samples (envWith corpusStatNone).corpus
        defaultRequest.substack_url.netloc defaultRequest.max_posts
        defaultRequest.max_chars_per_post = .error .osError) ∧
    create_style_profile noChoices (envWith corpusStatNone) defaultRequest =
      .error .osError :=
  ⟨⟨rfl, (C10_read_error_policy 2 2000).1 decodeEntry [] [] rfl⟩,
   ⟨rfl, (C10_read_error_policy 2 2000).2.1 osErrorEntry [] [] rfl⟩,
   ⟨rfl, by decide, by decide, rfl,
     (C10_read_error_policy 2 2000).2.2.1 corpusStatNone
       (("example.substack.com").data) [sampleEntryA, statNoneEntry] rfl
       ⟨statNoneEntry, by decide, rfl⟩⟩,
   (C10_read_error_policy 2 2000).2.2.2 noChoices (envWith corpusStatNone)
     defaultRequest .osError rfl (by decide) (by decide) rfl
     ((C10_read_error_policy 2 2000).2.2.1 corpusStatNone
       (("example.substack.com").data) [sampleEntryA, statNoneEntry] rfl
       ⟨statNoneEntry, by decide, rfl⟩)⟩

/-- C3: when selection returns no samples, the orchestrator fails with the
`NoSamplesFound` condition carrying the host — surfaced as HTTP 404.  The
result is the same for every generative oracle (the summarizer's output and
the prompt assembler are never consulted) and the failure is the invocation's
final answer: no retry exists in the function. -/
theorem C3_no_samples_found (env : Env) (req : StyleProfileRequest)
    (hkey : env.apiKeyPresent = true)
    (hscheme : startsWithHttp req.substack_url.scheme = true)
    (hhost : req.substack_url.netloc ≠ [])
    (hscrape : env.scrapeOk = true)
    (hempty : collect_samples env.corpus req.substack_url.netloc
      req.max_posts req.max_chars_per_post = .ok []) :
    (∀ llm, create_style_profile llm env req =
      .error (.noSamplesFound req.substack_url.netloc)) ∧
    statusCode (.noSamplesFound req.substack_url.netloc) = 404 := by
  refine ⟨?_, rfl⟩
  intro llm
  unfold create_style_profile
  rw [if_neg (by simp [hkey]), if_neg (by simp [hscheme]), if_neg hhost,
    if_neg (by simp [hscrape]), hempty]

theorem C3_no_samples_found_witness :
    ((envWith emptyCorpus).apiKeyPresent = true ∧
      startsWithHttp defaultRequest.substack_url.scheme = true ∧
      defaultRequest.substack_url.netloc ≠ [] ∧
      (envWith emptyCorpus).scrapeOk = true ∧
      collect_samples (envWith emptyCorpus).corpus
        defaultRequest.substack_url.netloc defaultRequest.max_posts
        defaultRequest.max_chars_per_post = .ok []) ∧
    create_style_profile noChoices (envWith emptyCorpus) defaultRequest =
      .error (.noSamplesFound defaultRequest.substack_url.netloc) :=
  ⟨⟨rfl, by decide, by decide, rfl, rfl⟩,
   (C3_no_samples_found (envWith emptyCorpus) defaultRequest rfl (by decide)
     (by decide) rfl rfl).1 noChoices⟩

theorem corpusSingleA_eval :
    collect_samples corpusSingleA (("example.substack.com").data) 2 2000 =
      .ok [mkSample 2000 sampleEntryA] := by
  unfold collect_samples
  rw [show corpusSingleA (("example.substack.com").data) =
    some [sampleEntryA] from rfl]
  dsimp only
  rw [if_pos (by decide), List.mergeSort_singleton]
  rfl

/-- C4: if the generative response has zero choices, or its first choice has
no extractable text content, the prompt assembler fails with
`GenerationFailure` instead of substituting a default, and the orchestrator
returns exactly that failure to its caller — untranslated and unretried. -/
theorem C4_generation_failure (llm : ChatRequest → LlmResponse) (env : Env)
    (req : StyleProfileRequest) (s : PostSample) (rest : List PostSample)
    (hkey : env.apiKeyPresent = true)
    (hscheme : startsWithHttp req.substack_url.scheme = true)
    (hhost : req.substack_url.netloc ≠ [])
    (hscrape : env.scrapeOk = true)
    (hsel : collect_samples env.corpus req.substack_url.netloc
      req.max_posts req.max_chars_per_post = .ok (s :: rest))
    (hbad : ∀ choice,
      (llm { model := req.model, temperature := req.temperature, messages := buildMessages req.substack_url.netloc (s :: rest) (summarize_corpus (s :: rest)) }).choices.head? = some choice →
      choice.content = none) :
    generate_style_prompt llm req.substack_url.netloc (s :: rest)
        (summarize_corpus (s :: rest)) req.model req.temperature =
      .error .generationFailure ∧
    create_style_profile llm env req = .error .generationFailure := by
  have hgen : generate_style_prompt llm req.substack_url.netloc (s :: rest)
      (summarize_corpus (s :: rest)) req.model req.temperature =
      .error .generationFailure := by
    unfold generate_style_prompt extractContent
    cases hh : (llm { model := req.model, temperature := req.temperature, messages := buildMessages req.substack_url.netloc (s :: rest) (summarize_corpus (s :: rest)) }).choices.head? with
    | none => rfl
    | some choice =>
      dsimp only
      rw [hbad choice hh]
  refine ⟨hgen, ?_⟩
  unfold create_style_profile
  rw [if_neg (by simp [hkey]), if_neg (by simp [hscheme]), if_neg hhost,
    if_neg (by simp [hscrape]), hsel]
  dsimp only
  rw [hgen]

theorem C4_generation_failure_witness :
    ((envWith corpusSingleA).apiKeyPresent = true ∧
      startsWithHttp defaultRequest.substack_url.scheme = true ∧
      defaultRequest.substack_url.netloc ≠ [] ∧
      (envWith corpusSingleA).scrapeOk = true ∧
      collect_samples (envWith corpusSingleA).corpus
        defaultRequest.substack_url.netloc defaultRequest.max_posts
        defaultRequest.max_chars_per_post = .ok [mkSample 2000 sampleEntryA] ∧
      (noChoices { model := defaultRequest.model, temperature := defaultRequest.temperature, messages := buildMessages defaultRequest.substack_url.netloc [mkSample 2000 sampleEntryA] (summarize_corpus [mkSample 2000 sampleEntryA]) }).choices = []) ∧
    generate_style_prompt noChoices defaultRequest.substack_url.netloc
        [mkSample 2000 sampleEntryA]
        (summarize_corpus [mkSample 2000 sampleEntryA])
        defaultRequest.model defaultRequest.temperature =
      .error .generationFailure ∧
    create_style_profile noChoices (envWith corpusSingleA) defaultRequest =
      .error .generationFailure :=
  ⟨⟨rfl, by decide, by decide, rfl, corpusSingleA_eval, rfl⟩,
   (C4_generation_failure noChoices (envWith corpusSingleA) defaultRequest
     (mkSample 2000 sampleEntryA) [] rfl (by decide) (by decide) rfl
     corpusSingleA_eval (fun choice h => nomatch h)).1,
   (C4_generation_failure noChoices (envWith corpusSingleA) defaultRequest
     (mkSample 2000 sampleEntryA) [] rfl (by decide) (by decide) rfl
     corpusSingleA_eval (fun choice h => nomatch h)).2⟩

/-! ## Keyword ranking -/

theorem mem_dedupFirstAux : ∀ (seen l : List (List Char)) (a : List Char),
    a ∈ dedupFirstAux seen l ↔ a ∈ l ∧ a ∉ seen
  | seen, [], a => by simp [dedupFirstAux]
  | seen, w :: ws, a => by
    unfold dedupFirstAux
    by_cases hw : w ∈ seen
    · rw [if_pos hw, mem_dedupFirstAux seen ws a]
      constructor
      · rintro ⟨h1, h2⟩
        exact ⟨List.mem_cons_of_mem _ h1, h2⟩
      · rintro ⟨h1, h2⟩
        rcases List.mem_cons.mp h1 with rfl | h1'
        · exact absurd hw h2
        · exact ⟨h1', h2⟩
    · rw [if_neg hw]
      constructor
      · intro h
        rcases List.mem_cons.mp h with rfl | h'
        · exact ⟨List.mem_cons_self _ _, hw⟩
        · obtain ⟨h1, h2⟩ := (mem_dedupFirstAux (w :: seen) ws a).mp h'
          exact ⟨List.mem_cons_of_mem _ h1,
            fun hs => h2 (List.mem_cons_of_mem _ hs)⟩
      · rintro ⟨h1, h2⟩
        rcases List.mem_cons.mp h1 with rfl | h1'
        · exact List.mem_cons_self _ _
        · by_cases haw : a = w
          · subst haw
            exact List.mem_cons_self _ _
          · refine List.mem_cons_of_mem _
              ((mem_dedupFirstAux (w :: seen) ws a).mpr ⟨h1', ?_⟩)
            intro hs
            exact (List.mem_cons.mp hs).elim haw h2

theorem mem_dedupFirst (l : List (List Char)) (a : List Char) :
    a ∈ dedupFirst l ↔ a ∈ l := by
  simp [dedupFirst, mem_dedupFirstAux]

theorem nodup_dedupFirstAux : ∀ (seen l : List (List Char)),
    (dedupFirstAux seen l).Nodup
  | _, [] => List.nodup_nil
  | seen, w :: ws => by
    unfold dedupFirstAux
    by_cases hw : w ∈ seen
    · rw [if_pos hw]
      exact nodup_dedupFirstAux seen ws
    · rw [if_neg hw]
      refine List.nodup_cons.mpr ⟨?_, nodup_dedupFirstAux (w :: seen) ws⟩
      intro hmem
      exact ((mem_dedupFirstAux (w :: seen) ws w).mp hmem).2
        (List.mem_cons_self _ _)

theorem nodup_dedupFirst (l : List (List Char)) : (dedupFirst l).Nodup :=
  nodup_dedupFirstAux [] l

theorem firstIdx_inj : ∀ {l : List (List Char)} {a b : List Char},
    a ∈ l → firstIdx l a = firstIdx l b → a = b
  | [], a, _, ha, _ => absurd ha (List.not_mem_nil a)
  | c :: t, a, b, ha, heq => by
    by_cases hca : c = a
    · subst hca
      by_cases hcb : c = b
      · exact hcb
      · rw [show firstIdx (c :: t) c = 0 from by simp [firstIdx],
          show firstIdx (c :: t) b = firstIdx t b + 1 from by
            simp [firstIdx, hcb]] at heq
        cases heq
    · by_cases hcb : c = b
      · subst hcb
        rw [show firstIdx (c :: t) a = firstIdx t a + 1 from by
            simp [firstIdx, hca],
          show firstIdx (c :: t) c = 0 from by simp [firstIdx]] at heq
        cases heq
      · have ha' : a ∈ t := (List.mem_cons.mp ha).resolve_left
          (fun h => hca h.symm)
        rw [show firstIdx (c :: t) a = firstIdx t a + 1 from by
            simp [firstIdx, hca],
          show firstIdx (c :: t) b = firstIdx t b + 1 from by
            simp [firstIdx, hcb]] at heq
        exact firstIdx_inj ha' (by omega)

/-- First-occurrence order among elements that survive a filter is the same
in the filtered list as in the original list. -/
theorem firstIdx_filter_lt {p : List Char → Bool} :
    ∀ {l : List (List Char)} {a b : List Char},
      p a = true → p b = true → a ∈ l →
      firstIdx (l.filter p) a < firstIdx (l.filter p) b →
      firstIdx l a < firstIdx l b
  | [], a, _, _, _, ha, _ => absurd ha (List.not_mem_nil a)
  | c :: t, a, b, hpa, hpb, ha, hlt => by
    by_cases hca : c = a
    · subst hca
      have hab : c ≠ b := by
        intro hcb
        subst hcb
        exact Nat.lt_irrefl _ hlt
      rw [show firstIdx (c :: t) c = 0 from by simp [firstIdx],
        show firstIdx (c :: t) b = firstIdx t b + 1 from by
          simp [firstIdx, hab]]
      omega
    · by_cases hcb : c = b
      · subst hcb
        rw [List.filter_cons_of_pos hpb] at hlt
        rw [show firstIdx (c :: List.filter p t) c = 0 from by
          simp [firstIdx]] at hlt
        exact absurd hlt (Nat.not_lt_zero _)
      · have ha' : a ∈ t := (List.mem_cons.mp ha).resolve_left
          (fun h => hca h.symm)
        rw [show firstIdx (c :: t) a = firstIdx t a + 1 from by
            simp [firstIdx, hca],
          show firstIdx (c :: t) b = firstIdx t b + 1 from by
            simp [firstIdx, hcb]]
        by_cases hpc : p c = true
        · rw [List.filter_cons_of_pos hpc,
            show firstIdx (c :: List.filter p t) a =
              firstIdx (List.filter p t) a + 1 from by simp [firstIdx, hca],
            show firstIdx (c :: List.filter p t) b =
              firstIdx (List.filter p t) b + 1 from by
              simp [firstIdx, hcb]] at hlt
          have := firstIdx_filter_lt hpa hpb ha' (by omega)
          omega
        · rw [List.filter_cons_of_neg (by simpa using hpc)] at hlt
          have := firstIdx_filter_lt hpa hpb ha' hlt
          omega

theorem mostCommonLe_trans (kws : List (List Char)) (a b c : List Char)
    (h1 : mostCommonLe kws a b) (h2 : mostCommonLe kws b c) :
    mostCommonLe kws a c := by
  simp only [mostCommonLe, Bool.or_eq_true, Bool.and_eq_true,
    decide_eq_true_eq] at h1 h2 ⊢
  omega

theorem mostCommonLe_total (kws : List (List Char)) (a b : List Char) :
    (mostCommonLe kws a b || mostCommonLe kws b a) = true := by
  simp only [mostCommonLe, Bool.or_eq_true, Bool.and_eq_true,
    decide_eq_true_eq]
  omega

/-- C6: `top_keywords` contains no stopword and no token of length ≤ 3, and
never more than 15 entries. -/
theorem C6_keyword_filter (samples : List PostSample) :
    (∀ w ∈ (summarize_corpus samples).top_keywords,
      w ∉ stopwords ∧ 3 < w.length) ∧
    (summarize_corpus samples).top_keywords.length ≤ 15 := by
  have htop : (summarize_corpus samples).top_keywords =
      mostCommon (corpusKeywords samples) 15 := rfl
  constructor
  · intro w hw
    rw [htop] at hw
    unfold mostCommon at hw
    have hw1 := List.mem_of_mem_take hw
    rw [List.mem_mergeSort, mem_dedupFirst] at hw1
    unfold corpusKeywords keywords at hw1
    obtain ⟨-, hpred⟩ := List.mem_filter.mp hw1
    exact of_decide_eq_true hpred
  · rw [htop]
    exact List.length_take_le _ _

theorem C6_keyword_filter_witness :
    ("wonderful").data ∈ (summarize_corpus [wonderSample]).top_keywords ∧
    ("wonderful").data ∉ stopwords ∧ 3 < (("wonderful").data).length ∧
    (summarize_corpus [wonderSample]).top_keywords.length ≤ 15 := by
  have htop : (summarize_corpus [wonderSample]).top_keywords =
      [("wonderful").data] := by
    show mostCommon (corpusKeywords [wonderSample]) 15 = [("wonderful").data]
    unfold mostCommon
    rw [show dedupFirst (corpusKeywords [wonderSample]) =
      [("wonderful").data] from by decide]
    rw [List.mergeSort_singleton]
    rfl
  have hmem : ("wonderful").data ∈
      (summarize_corpus [wonderSample]).top_keywords := by
    rw [htop]
    exact List.mem_singleton.mpr rfl
  obtain ⟨h1, h2⟩ := (C6_keyword_filter [wonderSample]).1 _ hmem
  exact ⟨hmem, h1, h2, (C6_keyword_filter [wonderSample]).2⟩

/-- C7: `top_keywords` is the 15-element prefix of a ranking of all distinct
keyword candidates ordered by frequency descending, ties broken in favour of
the candidate first encountered in the token stream. -/
theorem C7_stable_frequency_ranking (samples : List PostSample) :
    ∃ ranking : List (List Char),
      List.Perm ranking (dedupFirst (corpusKeywords samples)) ∧
      (summarize_corpus samples).top_keywords = ranking.take 15 ∧
      ranking.Pairwise (fun a b =>
        countOcc (corpusKeywords samples) b <
          countOcc (corpusKeywords samples) a ∨
        (countOcc (corpusKeywords samples) a =
            countOcc (corpusKeywords samples) b ∧
          firstIdx (corpusTokens samples) a <
            firstIdx (corpusTokens samples) b)) := by
  refine ⟨(dedupFirst (corpusKeywords samples)).mergeSort
    (mostCommonLe (corpusKeywords samples)),
    List.mergeSort_perm _ _, rfl, ?_⟩
  have hsorted := @List.sorted_mergeSort _
    (mostCommonLe (corpusKeywords samples))
    (mostCommonLe_trans (corpusKeywords samples))
    (mostCommonLe_total (corpusKeywords samples))
    (dedupFirst (corpusKeywords samples))
  have hnodup := (List.mergeSort_perm (dedupFirst (corpusKeywords samples))
    (mostCommonLe (corpusKeywords samples))).symm.nodup
    (nodup_dedupFirst (corpusKeywords samples))
  have hboth := hsorted.imp₂ (fun a b h1 h2 => And.intro h1 h2) hnodup
  refine List.Pairwise.imp_of_mem ?_ hboth
  intro a b ha hb hab
  obtain ⟨hle, hne⟩ := hab
  have ha' : a ∈ corpusKeywords samples := by
    have := List.mem_mergeSort.mp ha
    rwa [mem_dedupFirst] at this
  have hb' : b ∈ corpusKeywords samples := by
    have := List.mem_mergeSort.mp hb
    rwa [mem_dedupFirst] at this
  simp only [mostCommonLe, Bool.or_eq_true, Bool.and_eq_true,
    decide_eq_true_eq] at hle
  rcases hle with hlt | ⟨heq, hfle⟩
  · exact Or.inl hlt
  · refine Or.inr ⟨heq, ?_⟩
    have hstrict : firstIdx (corpusKeywords samples) a <
        firstIdx (corpusKeywords samples) b := by
      rcases Nat.lt_or_ge (firstIdx (corpusKeywords samples) a)
        (firstIdx (corpusKeywords samples) b) with h | h
      · exact h
      · exact absurd (firstIdx_inj ha' (by omega)) hne
    have hpa := (List.mem_filter.mp ha').2
    have hpb := (List.mem_filter.mp hb').2
    have hatoks := (List.mem_filter.mp ha').1
    exact firstIdx_filter_lt hpa hpb hatoks hstrict

end StyleGen
